import Mathlib

/-!
Shallow embedding of `tools/sample_parser/sample_parser.py` (a Python 2
script) and proofs about its behaviour.

The script reads a sample-trace file (`ips_sampled`) and a disassembly file
(`objdump_output`), correlates sampled instruction pointers with disassembly
lines, and prints per-task frequency tables.

Modelling conventions:
* a Python string is a `List Char`; a file is the list of its lines, each line
  with its trailing newline, exactly as `for line in file` yields them;
* `line[4:20]` / `line[21:22]` become `(drop 4).take 16` / `(drop 21).take 1`,
  which share Python's clamping slice semantics;
* the two compiled regexes are specialised by hand to their leftmost-match
  semantics (derivations in the comments at each definition);
* `defaultdict(int)` / `defaultdict(lambda: defaultdict(int))` become
  association lists updated by `bump` / `bump2`; only table contents are
  modelled — CPython 2 iterates dict keys in hash order, and no theorem below
  depends on an iteration order;
* floats are modelled as rationals: the only arithmetic performed is
  `len(ip_list)*1.0` and `freq/ip_list_len`, which is exact division;
* the inner loop `for idx, ip in enumerate(ip_list)` with `ip_list.remove(ip)`
  inside is modelled by an explicit cursor (`scanGo`): the CPython list
  iterator keeps an index cursor, returns `list[cursor]` while
  `cursor < len(list)` and increments it, and `remove` deletes the first
  occurrence of the value from the (shared, live) list;
* the unused globals `ip_frequency` and `function_freq` of the script are
  omitted; `function_instruction` records `(enclosing_function, instr)` —
  the `attrs` field below additionally carries the task-id recorded by the
  simultaneous dict updates, and the ghost field `matched` records the ip
  value consumed at each match event (pure instrumentation).
-/

namespace SampleParser

/-- A Python string. -/
abbrev Str := List Char

/-- Literal Lean strings converted to the model's string type. -/
def strL (s : String) : Str := s.toList

/-- Python's `\s` character class (`[ \t\n\r\f\v]`). -/
def pySpace (c : Char) : Bool :=
  c = ' ' || c = '\t' || c = '\n' || c = '\r' || c = '\x0b' || c = '\x0c'

/-- The `[a-z]` character class. -/
def pyLower (c : Char) : Bool := 'a' ≤ c && c ≤ 'z'

/-- `needle` is an initial segment of `hay`. -/
def startsWithStr : Str → Str → Bool
  | _, [] => true
  | [], _ :: _ => false
  | a :: as, b :: bs => a = b && startsWithStr as bs

/-- Python's substring test `needle in hay`. -/
def containsStr : Str → Str → Bool
  | [], needle => needle.isEmpty
  | a :: as, needle => startsWithStr (a :: as) needle || containsStr as needle

/-- Length of the longest prefix whose characters satisfy `p`. -/
def runLen (p : Char → Bool) (l : Str) : Nat := (l.takeWhile p).length

/-- One attempt of `instruction_regex = (\s{2,})([a-z])+(?=\s+)` at a fixed
position, returning `group(0)` on success.  At a given position the regex
matches iff the maximal whitespace run there has length `w ≥ 2`, is followed
by a maximal lowercase run of length `m ≥ 1`, which is followed by a further
whitespace character: `\s{2,}` is greedy and cannot stop early (the next
character of the run is whitespace, not `[a-z]`), `([a-z])+` is greedy and
cannot stop early (the lookahead would see a letter), and `(?=\s+)` needs one
whitespace character.  `group(0)` is the whitespace run plus the letter run. -/
def matchInstrAt (l : Str) : Option Str :=
  let w := runLen pySpace l
  if 2 ≤ w then
    let rest := l.drop w
    let m := runLen pyLower rest
    if 1 ≤ m then
      match rest.drop m with
      | c :: _ => if pySpace c then some (l.take (w + m)) else none
      | [] => none
    else none
  else none

/-- `instruction_regex.search(line)`: leftmost position at which
`matchInstrAt` succeeds. -/
def searchInstr : Str → Option Str
  | [] => none
  | c :: t =>
    match matchInstrAt (c :: t) with
    | some g => some g
    | none => searchInstr t

/-- For `function_regex = <(.)*>:` — the largest `j` such that `l[j] = '>'`,
`l[j+1] = ':'` and no `'\n'` occurs strictly before position `j` (`.` does not
match a newline; `(.)*` is greedy, so the regex consumes up to the last such
`>`:`:` pair). -/
def lastHeaderEnd : Str → Option Nat
  | [] => none
  | c :: rest =>
    match if c = '\n' then none else (lastHeaderEnd rest).map (· + 1) with
    | some j => some j
    | none =>
      if c = '>' then
        match rest with
        | ':' :: _ => some 0
        | _ => none
      else none

/-- `function_regex.search(line)`: from the leftmost `'<'` that is followed
(newline-free) by some `">:"`, `group(0)` runs up to the last such `">:"`. -/
def searchFunc : Str → Option Str
  | [] => none
  | c :: rest =>
    if c = '<' then
      match lastHeaderEnd rest with
      | some j => some (c :: rest.take (j + 2))
      | none => searchFunc rest
    else searchFunc rest

/-- `str.lstrip()` (strip leading whitespace). -/
def lstripStr (l : Str) : Str := l.dropWhile pySpace

/-- A frequency table: `defaultdict(int)` as an association list in first-bump
order. -/
abbrev Table := List (Str × Nat)

/-- `d[k] += 1` on a `defaultdict(int)`. -/
def bump (k : Str) : Table → Table
  | [] => [(k, 1)]
  | (k', v) :: t => if k' = k then (k', v + 1) :: t else (k', v) :: bump k t

/-- Table lookup with the `defaultdict` default `0`. -/
def lookupD (k : Str) : Table → Nat
  | [] => 0
  | (k', v) :: t => if k' = k then v else lookupD k t

/-- The outer `defaultdict(lambda: defaultdict(int))`. -/
abbrev Table2 := List (Str × Table)

/-- Lookup of a task-id's inner table (default: empty). -/
def lookupT (k : Str) : Table2 → Table
  | [] => []
  | (k', v) :: t => if k' = k then v else lookupT k t

/-- `d[id][k] += 1` on the nested defaultdict. -/
def bump2 (id k : Str) : Table2 → Table2
  | [] => [(id, [(k, 1)])]
  | (id', tab) :: t =>
    if id' = id then (id', bump k tab) :: t else (id', tab) :: bump2 id k t

/-- Sum of the counts of a table. -/
def tSum (t : Table) : Nat := (t.map Prod.snd).sum

/-- `ip_frequency_per_id[...]["Function Header IP (no associated instruction)"]`'s key. -/
def markerLong : Str := strL "Function Header IP (no associated instruction)"

/-- The marker stored in the `function_instruction` tuples. -/
def markerShort : Str := strL "Function Header IP"

/-- `list.remove(x)`: delete the first occurrence of `x`. -/
def removeFirst (x : Str) : List Str → List Str
  | [] => []
  | y :: t => if y = x then t else y :: removeFirst x t

/-- The mutable state of the correlation loop. -/
structure St where
  ips : List Str
  ipFreq : Table2
  fnFreq : Table2
  attrs : List (Str × Str × Str)
  matched : List Str

/-- The body of `if ip in line:` — one attribution event.  `rid` is
`id_list[idx]`, read from the never-mutated id list at the cursor position of
the mutated ip list (in every reachable state `idx < idList.length`, so the
`getD` default is never used).  `instr` is `instruction_regex.search(line)`,
constant during one line's scan. -/
def stepMatch (idList : List Str) (en : Str) (instr : Option Str)
    (idx : Nat) (ip : Str) (st : St) : St :=
  let rid := idList.getD idx []
  match instr with
  | some g =>
    { ips := removeFirst ip st.ips
      ipFreq := bump2 rid (lstripStr g) st.ipFreq
      fnFreq := bump2 rid en st.fnFreq
      attrs := st.attrs ++ [(rid, en, lstripStr g)]
      matched := st.matched ++ [ip] }
  | none =>
    { ips := removeFirst ip st.ips
      ipFreq := bump2 rid markerLong st.ipFreq
      fnFreq := bump2 rid en st.fnFreq
      attrs := st.attrs ++ [(rid, en, markerShort)]
      matched := st.matched ++ [ip] }

/-- `for idx, ip in enumerate(ip_list): ...` with `ip_list.remove(ip)` in the
body: the iterator's cursor `idx` advances by one each step over the live
list, so a removal shifts the next element under the cursor and it is
skipped.  The fuel only bounds the number of steps: the cursor strictly
increases and the list never grows, so `st.ips.length` steps always suffice
(when the fuel runs out the cursor is already past the end of the list). -/
def scanGo (line : Str) (idList : List Str) (en : Str) (instr : Option Str) :
    Nat → Nat → St → St
  | 0, _, st => st
  | fuel + 1, idx, st =>
    match (st.ips.drop idx).head? with
    | none => st
    | some ip =>
      if containsStr line ip then
        scanGo line idList en instr fuel (idx + 1)
          (stepMatch idList en instr idx ip st)
      else
        scanGo line idList en instr fuel (idx + 1) st

/-- One line's scan of the remaining-sample list. -/
def scanLine (line : Str) (idList : List Str) (en : Str) (st : St) : St :=
  scanGo line idList en (searchInstr line) st.ips.length 0 st

/-- State of the outer loop over the disassembly: the running
`enclosing_function` plus the shared mutable state. -/
structure CS where
  en : Str
  st : St

/-- One iteration of `for line in bin_file:` — the function-header check
updates `enclosing_function` before the sample scan. -/
def procLine (idList : List Str) (cs : CS) (line : Str) : CS :=
  let en' :=
    match searchFunc line with
    | some g => g
    | none => cs.en
  { en := en', st := scanLine line idList en' cs.st }

/-- The whole correlation loop, starting from `enclosing_function = ""`. -/
def correlate (idList : List Str) (lines : List Str) (st : St) : CS :=
  lines.foldl (procLine idList) { en := [], st := st }

/-- `line[4:20]` — the ip token of a trace line. -/
def ipTok (l : Str) : Str := (l.drop 4).take 16

/-- `line[21:22]` — the task-id token of a trace line. -/
def idTok (l : Str) : Str := (l.drop 21).take 1

/-- Result of a whole run up to (and excluding) the printing loop. -/
structure RunOut where
  ips0 : List Str
  ids0 : List Str
  totalLoaded : Nat
  final : CS

/-- The pipeline: read the trace, fix `ip_list_len` (before the correlation
loop mutates `ip_list`), then correlate against the disassembly lines. -/
def run (traceLines binLines : List Str) : RunOut :=
  let ips0 := traceLines.map ipTok
  let ids0 := traceLines.map idTok
  { ips0 := ips0
    ids0 := ids0
    totalLoaded := ips0.length
    final := correlate ids0 binLines ⟨ips0, [], [], [], []⟩ }

/-- Stable insertion (descending by count) behind
`sorted(..., key=itemgetter(1), reverse=True)`. -/
def insertDesc (p : Str × Nat) : Table → Table
  | [] => [p]
  | q :: t => if p.2 ≤ q.2 then q :: insertDesc p t else p :: q :: t

/-- The sort used by the report loop. -/
def sortDesc (l : Table) : Table := l.foldr insertDesc []

/-- One table rendered by the report loop: sorted entries, each count divided
by `ip_list_len`. -/
def rows (total : ℚ) (t : Table) : List (Str × ℚ) :=
  (sortDesc t).map (fun p => (p.1, (p.2 : ℚ) / total))

/-- What the report loop prints: per task-id (one per key of
`function_frequency_per_id`) its function rows then its instruction rows, and
finally `Samples taken: ip_list_len`. -/
structure Output where
  sections : List (Str × List (Str × ℚ) × List (Str × ℚ))
  samplesTaken : ℚ

/-- The report loop. -/
def report (r : RunOut) : Output :=
  { sections := r.final.st.fnFreq.map
      (fun p => (p.1, rows (r.totalLoaded : ℚ) p.2,
                 rows (r.totalLoaded : ℚ) (lookupT p.1 r.final.st.ipFreq)))
    samplesTaken := (r.totalLoaded : ℚ) }

/-! ### Basic list facts -/

/-- The empty string is a substring of every string (`"" in s` is `True`). -/
theorem containsStr_nil (l : Str) : containsStr l [] = true := by
  cases l with
  | nil => rfl
  | cons a t => simp [containsStr, startsWithStr]

theorem drop_head?_cons {l : List Str} {i : Nat} {x : Str}
    (h : (l.drop i).head? = some x) : l.drop i = x :: l.drop (i + 1) := by
  induction l generalizing i with
  | nil => simp at h
  | cons a t ih =>
    cases i with
    | zero => simp_all
    | succ j => simpa using ih (by simpa using h)

theorem mem_of_drop_head? {l : List Str} {i : Nat} {x : Str}
    (h : (l.drop i).head? = some x) : x ∈ l := by
  have h1 : x ∈ l.drop i := by
    rw [drop_head?_cons h]; exact List.mem_cons_self _ _
  have := List.take_append_drop i l
  rw [← this]
  exact List.mem_append_right _ h1

theorem lt_of_drop_head? {l : List Str} {i : Nat} {x : Str}
    (h : (l.drop i).head? = some x) : i < l.length := by
  by_contra hle
  rw [List.drop_eq_nil_of_le (by omega)] at h
  simp at h

theorem removeFirst_length_le (x : Str) (l : List Str) :
    (removeFirst x l).length ≤ l.length := by
  induction l with
  | nil => simp [removeFirst]
  | cons y t ih =>
    by_cases h : y = x
    · simp [removeFirst, h]
    · simp [removeFirst, h]; omega

theorem removeFirst_length_of_mem {x : Str} {l : List Str} (h : x ∈ l) :
    (removeFirst x l).length + 1 = l.length := by
  induction l with
  | nil => simp at h
  | cons y t ih =>
    by_cases hyx : y = x
    · simp [removeFirst, hyx]
    · have hxt : x ∈ t := by
        rcases List.mem_cons.mp h with h' | h'
        · exact absurd h'.symm hyx
        · exact h'
      simp [removeFirst, hyx, ih hxt]

/-- Number of occurrences of a value in a list of strings. -/
def cnt (v : Str) : List Str → Nat
  | [] => 0
  | y :: t => (if y = v then 1 else 0) + cnt v t

theorem cnt_append (v : Str) (l m : List Str) :
    cnt v (l ++ m) = cnt v l + cnt v m := by
  induction l with
  | nil => simp [cnt]
  | cons y t ih => simp [cnt, ih]; omega

theorem cnt_removeFirst_of_mem {x : Str} {l : List Str} (h : x ∈ l) (v : Str) :
    cnt v (removeFirst x l) + (if x = v then 1 else 0) = cnt v l := by
  induction l with
  | nil => simp at h
  | cons y t ih =>
    by_cases hyx : y = x
    · subst hyx; simp [removeFirst, cnt]; omega
    · have hxt : x ∈ t := by
        rcases List.mem_cons.mp h with h' | h'
        · exact absurd h'.symm hyx
        · exact h'
      simp [removeFirst, hyx, cnt]
      have h2 := ih hxt
      omega

theorem cnt_removeFirst_ne {x v : Str} (hne : x ≠ v) (l : List Str) :
    cnt v (removeFirst x l) = cnt v l := by
  induction l with
  | nil => rfl
  | cons y t ih =>
    by_cases hyx : y = x
    · subst hyx; simp [removeFirst, cnt, hne]
    · simp [removeFirst, hyx, cnt, ih]

theorem getD_mem_of_lt : ∀ (l : List Str) (i : Nat), i < l.length →
    l.getD i [] ∈ l := by
  intro l
  induction l with
  | nil => intro i h; simp at h
  | cons a t ih =>
    intro i h
    cases i with
    | zero => simp
    | succ j =>
      have := ih j (by simpa using Nat.lt_of_succ_lt_succ h)
      simp [List.getD_cons_succ]
      right; simpa using this

/-! ### Table facts -/

theorem lookupT_bump2_eq (id k : Str) (t : Table2) :
    lookupT id (bump2 id k t) = bump k (lookupT id t) := by
  induction t with
  | nil => simp [bump2, lookupT, bump]
  | cons p r ih =>
    by_cases h : p.1 = id
    · cases p; simp_all [bump2, lookupT]
    · cases p; simp_all [bump2, lookupT]

theorem lookupT_bump2_ne {id id' : Str} (h : id ≠ id') (k : Str) (t : Table2) :
    lookupT id' (bump2 id k t) = lookupT id' t := by
  induction t with
  | nil => simp [bump2, lookupT, h]
  | cons p r ih =>
    cases p with | mk a b =>
    by_cases hp : a = id
    · subst hp
      simp [bump2, lookupT, h]
    · by_cases hq : a = id'
      · subst hq
        simp [bump2, lookupT, Ne.symm h]
      · simp [bump2, lookupT, hp, hq, ih]

theorem tSum_bump (k : Str) (t : Table) : tSum (bump k t) = tSum t + 1 := by
  induction t with
  | nil => simp [bump, tSum]
  | cons p r ih =>
    by_cases h : p.1 = k
    · cases p; simp_all [bump, tSum]; omega
    · cases p; simp_all [bump, tSum]; omega

/-- Count of attribution records carrying a given task-id. -/
def attrCnt (id : Str) : List (Str × Str × Str) → Nat
  | [] => 0
  | a :: t => (if a.1 = id then 1 else 0) + attrCnt id t

theorem attrCnt_append_one (id r f m : Str) (as : List (Str × Str × Str)) :
    attrCnt id (as ++ [(r, f, m)]) = attrCnt id as + (if r = id then 1 else 0) := by
  induction as with
  | nil => simp [attrCnt]
  | cons a t ih => simp [attrCnt, ih]; omega

/-! ### Invariance along the correlation loop -/

/-- Any property preserved by every attribution event is preserved by a whole
line scan.  The event hypothesis records that `ip` is the element under the
cursor and that its token matched the line. -/
theorem scanGo_inv (line : Str) (idList : List Str) (en : Str)
    (instr : Option Str) (P : St → Prop)
    (hstep : ∀ idx ip st, (st.ips.drop idx).head? = some ip →
      containsStr line ip = true → P st →
      P (stepMatch idList en instr idx ip st)) :
    ∀ fuel idx st, P st → P (scanGo line idList en instr fuel idx st) := by
  intro fuel
  induction fuel with
  | zero => intro idx st h; exact h
  | succ n ih =>
    intro idx st h
    cases hd : (st.ips.drop idx).head? with
    | none => simpa [scanGo, hd] using h
    | some ip =>
      cases hc : containsStr line ip with
      | false => simpa [scanGo, hd, hc] using ih (idx + 1) st h
      | true =>
        simpa [scanGo, hd, hc] using
          ih (idx + 1) (stepMatch idList en instr idx ip st) (hstep idx ip st hd hc h)

/-- The remaining-sample list never grows during a line scan. -/
theorem scanGo_ips_le (line : Str) (idList : List Str) (en : Str)
    (instr : Option Str) (fuel idx : Nat) (st : St) :
    (scanGo line idList en instr fuel idx st).ips.length ≤ st.ips.length := by
  have h := scanGo_inv line idList en instr
    (fun s => s.ips.length ≤ st.ips.length)
    (by
      intro idx' ip' st' _ _ hle
      cases hi : instr <;>
        simpa [stepMatch, hi] using
          le_trans (removeFirst_length_le ip' st'.ips) hle)
    fuel idx st le_rfl
  exact h

/-- Any property preserved by every attribution event is preserved by the
whole loop over the disassembly lines. -/
theorem foldProc_inv (idList : List Str) (P : St → Prop) :
    ∀ (lines : List Str),
      (∀ line, line ∈ lines → ∀ en idx ip st,
        (st.ips.drop idx).head? = some ip → containsStr line ip = true →
        P st → P (stepMatch idList en (searchInstr line) idx ip st)) →
      ∀ cs : CS, P cs.st → P ((List.foldl (procLine idList) cs lines).st) := by
  intro lines
  induction lines with
  | nil => intro _ cs h; simpa using h
  | cons l ls ih =>
    intro hstep cs h
    have h1 : P ((procLine idList cs l).st) := by
      simp only [procLine]
      exact scanGo_inv l idList _ (searchInstr l) P
        (fun idx ip st hd hc hp =>
          hstep l (List.mem_cons_self _ _) _ idx ip st hd hc hp)
        _ 0 cs.st h
    simpa using ih (fun line hl => hstep line (List.mem_cons_of_mem _ hl)) _ h1

/-- `foldProc_inv` specialised to the whole correlation run. -/
theorem correlate_inv (idList : List Str) (P : St → Prop) (lines : List Str)
    (hstep : ∀ line, line ∈ lines → ∀ en idx ip st,
      (st.ips.drop idx).head? = some ip → containsStr line ip = true →
      P st → P (stepMatch idList en (searchInstr line) idx ip st))
    (st : St) (h : P st) : P ((correlate idList lines st).st) :=
  foldProc_inv idList P lines hstep _ h

/-- If some sample at or past the cursor matches the line, the scan removes
at least one sample (the first matching one it reaches). -/
theorem scanGo_decrease (line : Str) (idList : List Str) (en : Str)
    (instr : Option Str) :
    ∀ (fuel idx : Nat) (st : St),
      (∃ ip ∈ st.ips.drop idx, containsStr line ip = true) →
      st.ips.length - idx ≤ fuel →
      (scanGo line idList en instr fuel idx st).ips.length < st.ips.length := by
  intro fuel
  induction fuel with
  | zero =>
    intro idx st hex hfu
    exfalso
    rcases hex with ⟨ip, hmem, _⟩
    have hlt : idx < st.ips.length := by
      by_contra hle
      rw [List.drop_eq_nil_of_le (by omega)] at hmem
      simp at hmem
    omega
  | succ n ih =>
    intro idx st hex hfu
    have hlt : idx < st.ips.length := by
      rcases hex with ⟨ip, hmem, _⟩
      by_contra hle
      rw [List.drop_eq_nil_of_le (by omega)] at hmem
      simp at hmem
    cases hd : (st.ips.drop idx).head? with
    | none =>
      exfalso
      rw [List.head?_eq_none_iff] at hd
      rcases hex with ⟨ip, hmem, _⟩
      rw [hd] at hmem
      simp at hmem
    | some a =>
      cases hc : containsStr line a with
      | true =>
        have hmem : a ∈ st.ips := mem_of_drop_head? hd
        have hlen : (stepMatch idList en instr idx a st).ips.length + 1 = st.ips.length := by
          cases hi : instr <;>
            simpa [stepMatch, hi] using removeFirst_length_of_mem hmem
        calc (scanGo line idList en instr (n + 1) idx st).ips.length
            = (scanGo line idList en instr n (idx + 1)
                (stepMatch idList en instr idx a st)).ips.length := by
              simp [scanGo, hd, hc]
          _ ≤ (stepMatch idList en instr idx a st).ips.length :=
              scanGo_ips_le _ _ _ _ _ _ _
          _ < st.ips.length := by omega
      | false =>
        rcases hex with ⟨ip, hmem, hip⟩
        have hsplit : st.ips.drop idx = a :: st.ips.drop (idx + 1) := drop_head?_cons hd
        have hmem' : ip ∈ st.ips.drop (idx + 1) := by
          rw [hsplit] at hmem
          rcases List.mem_cons.mp hmem with h' | h'
          · subst h'; rw [hip] at hc; cases hc
          · exact h'
        have := ih (idx + 1) st ⟨ip, hmem', hip⟩ (by omega)
        simpa [scanGo, hd, hc] using this

/-! ### The report's sort and rows -/

theorem insertDesc_perm (p : Str × Nat) (l : Table) :
    List.Perm (insertDesc p l) (p :: l) := by
  induction l with
  | nil => simp [insertDesc]
  | cons q t ih =>
    by_cases h : p.2 ≤ q.2
    · simp only [insertDesc, h, if_pos]
      exact (ih.cons q).trans (List.Perm.swap p q t)
    · simp [insertDesc, h]

theorem sortDesc_perm (l : Table) : List.Perm (sortDesc l) l := by
  induction l with
  | nil => simp [sortDesc]
  | cons a t ih =>
    have h : sortDesc (a :: t) = insertDesc a (sortDesc t) := rfl
    rw [h]
    exact (insertDesc_perm a (sortDesc t)).trans (ih.cons a)

/-- Every row rendered from a table is some table entry's count divided by
the given total. -/
theorem rows_mem {T : ℚ} {t : Table} {e : Str × ℚ} (h : e ∈ rows T t) :
    ∃ c : ℕ, (e.1, c) ∈ t ∧ e.2 = (c : ℚ) / T := by
  rcases List.mem_map.mp h with ⟨p, hp, rfl⟩
  exact ⟨p.2, by simpa using (sortDesc_perm t).mem_iff.mp hp, rfl⟩

theorem map_div_sum (T : ℚ) (l : Table) :
    (l.map (fun p => (p.2 : ℚ) / T)).sum = (l.map (fun p => (p.2 : ℚ))).sum / T := by
  induction l with
  | nil => simp
  | cons a t ih => simp [ih, add_div]

theorem map_cast_sum (l : Table) :
    (l.map (fun p => (p.2 : ℚ))).sum = ((l.map Prod.snd).sum : ℚ) := by
  induction l with
  | nil => simp
  | cons a t ih => simp [ih]

/-- The rendered frequencies of one table sum to its raw total divided by the
normalisation constant. -/
theorem rows_snd_sum (T : ℚ) (t : Table) :
    ((rows T t).map Prod.snd).sum = (tSum t : ℚ) / T := by
  have h1 : (rows T t).map Prod.snd = (sortDesc t).map (fun p => (p.2 : ℚ) / T) := by
    simp [rows, List.map_map]
  rw [h1, map_div_sum]
  have h2 : ((sortDesc t).map (fun p => (p.2 : ℚ))).sum
      = (t.map (fun p => (p.2 : ℚ))).sum :=
    ((sortDesc_perm t).map _).sum_eq
  rw [h2, map_cast_sum]
  rfl

/-! ### Field views of an attribution event -/

theorem stepMatch_ips (idList : List Str) (en : Str) (instr : Option Str)
    (idx : Nat) (ip : Str) (st : St) :
    (stepMatch idList en instr idx ip st).ips = removeFirst ip st.ips := by
  cases instr <;> rfl

theorem stepMatch_matched (idList : List Str) (en : Str) (instr : Option Str)
    (idx : Nat) (ip : Str) (st : St) :
    (stepMatch idList en instr idx ip st).matched = st.matched ++ [ip] := by
  cases instr <;> rfl

theorem stepMatch_attrs (idList : List Str) (en : Str) (instr : Option Str)
    (idx : Nat) (ip : Str) (st : St) :
    ∃ a : Str × Str × Str,
      (stepMatch idList en instr idx ip st).attrs = st.attrs ++ [a] ∧
      a.1 = idList.getD idx [] := by
  cases instr <;> exact ⟨_, rfl, rfl⟩

/-! ### The table/attribution invariant -/

/-- For every task-id the two tables' sums both equal the number of
attribution records carrying that id; every recorded id is an element of the
id list; and the remaining-sample list is not longer than the id list. -/
def tablesOK (idList : List Str) (st : St) : Prop :=
  (∀ id, tSum (lookupT id st.ipFreq) = attrCnt id st.attrs ∧
         tSum (lookupT id st.fnFreq) = attrCnt id st.attrs) ∧
  (∀ a ∈ st.attrs, a.1 ∈ idList) ∧
  st.ips.length ≤ idList.length

theorem tablesOK_build (idList : List Str) (st : St)
    (rid kIns f mTup ip : Str) (hrid : rid ∈ idList)
    (h : tablesOK idList st) :
    tablesOK idList
      { ips := removeFirst ip st.ips
        ipFreq := bump2 rid kIns st.ipFreq
        fnFreq := bump2 rid f st.fnFreq
        attrs := st.attrs ++ [(rid, f, mTup)]
        matched := st.matched ++ [ip] } := by
  obtain ⟨hsum, hmem, hlen⟩ := h
  refine ⟨?_, ?_, ?_⟩
  · intro id
    by_cases hid : rid = id
    · subst hid
      refine ⟨?_, ?_⟩
      · rw [lookupT_bump2_eq, tSum_bump, attrCnt_append_one, (hsum rid).1]
        simp
      · rw [lookupT_bump2_eq, tSum_bump, attrCnt_append_one, (hsum rid).2]
        simp
    · refine ⟨?_, ?_⟩
      · rw [lookupT_bump2_ne hid, attrCnt_append_one, (hsum id).1]
        simp [hid]
      · rw [lookupT_bump2_ne hid, attrCnt_append_one, (hsum id).2]
        simp [hid]
  · intro a ha
    rcases List.mem_append.mp ha with h' | h'
    · exact hmem a h'
    · have : a = (rid, f, mTup) := by simpa using h'
      rw [this]
      exact hrid
  · exact le_trans (removeFirst_length_le ip st.ips) hlen

theorem stepMatch_tablesOK (idList : List Str) (en : Str) (instr : Option Str)
    (idx : Nat) (ip : Str) (st : St)
    (hd : (st.ips.drop idx).head? = some ip)
    (h : tablesOK idList st) :
    tablesOK idList (stepMatch idList en instr idx ip st) := by
  have hidx : idx < idList.length :=
    Nat.lt_of_lt_of_le (lt_of_drop_head? hd) h.2.2
  have hrid : idList.getD idx [] ∈ idList := getD_mem_of_lt idList idx hidx
  cases instr with
  | none => exact tablesOK_build idList st _ _ _ _ _ hrid h
  | some g => exact tablesOK_build idList st _ _ _ _ _ hrid h

/-- The invariant holds at the end of every run (it holds initially and every
attribution event preserves it). -/
theorem run_tablesOK (tl bl : List Str) :
    tablesOK (run tl bl).ids0 (run tl bl).final.st := by
  have hinit : tablesOK (tl.map idTok) ⟨tl.map ipTok, [], [], [], []⟩ := by
    refine ⟨?_, ?_, ?_⟩
    · intro id
      simp [lookupT, tSum, attrCnt]
    · intro a ha
      simp at ha
    · simp
  have h := correlate_inv (tl.map idTok) (tablesOK (tl.map idTok)) bl
    (fun line _ en idx ip st hd _ h => stepMatch_tablesOK _ en _ idx ip st hd h)
    _ hinit
  simpa [run] using h

theorem head?_append_left {α : Type} {l : List α} {a : α} (m : List α)
    (h : l.head? = some a) : (l ++ m).head? = some a := by
  cases l with
  | nil => simp at h
  | cons x t => simpa using h

/-! ### Unfolding views of `run` and further invariants -/

theorem run_ids0 (tl bl : List Str) : (run tl bl).ids0 = tl.map idTok := rfl

theorem run_ips0 (tl bl : List Str) : (run tl bl).ips0 = tl.map ipTok := rfl

theorem run_total (tl bl : List Str) : (run tl bl).totalLoaded = tl.length := by
  simp [run]

theorem run_final (tl bl : List Str) :
    (run tl bl).final
      = List.foldl (procLine (tl.map idTok))
          ⟨[], ⟨tl.map ipTok, [], [], [], []⟩⟩ bl := rfl

/-- Multiset conservation: at every point each sample value's occurrences are
split between the remaining list and the matched (consumed) list, and each
match event produced exactly one attribution record. -/
theorem run_conserve (tl bl : List Str) :
    (∀ v, cnt v (run tl bl).final.st.ips + cnt v (run tl bl).final.st.matched
        = cnt v (run tl bl).ips0) ∧
    (run tl bl).final.st.attrs.length = (run tl bl).final.st.matched.length := by
  have h := correlate_inv (tl.map idTok)
    (fun st => (∀ v, cnt v st.ips + cnt v st.matched = cnt v (tl.map ipTok)) ∧
      st.attrs.length = st.matched.length) bl
    (fun line hl en idx ip st hd hc hP => by
      obtain ⟨h1, h2⟩ := hP
      have hmem : ip ∈ st.ips := mem_of_drop_head? hd
      constructor
      · intro v
        rw [stepMatch_ips, stepMatch_matched, cnt_append]
        have hrm := cnt_removeFirst_of_mem hmem v
        have hone : cnt v [ip] = if ip = v then 1 else 0 := by simp [cnt]
        have hv := h1 v
        omega
      · rcases stepMatch_attrs (tl.map idTok) en (searchInstr line) idx ip st
          with ⟨a, ha, _⟩
        rw [ha, stepMatch_matched]
        simp [h2])
    ⟨tl.map ipTok, [], [], [], []⟩
    ⟨fun v => by simp [cnt], rfl⟩
  simpa [run] using h

/-- A scan whose state already carries a first attribution record keeps it. -/
theorem scanGo_attrs_head (line : Str) (idList : List Str) (en : Str)
    (instr : Option Str) (fuel idx : Nat) (st : St) (a : Str × Str × Str)
    (h : st.attrs.head? = some a) :
    (scanGo line idList en instr fuel idx st).attrs.head? = some a := by
  refine scanGo_inv line idList en instr (fun s => s.attrs.head? = some a)
    (fun idx' ip' st' _ _ hp => ?_) fuel idx st h
  rcases stepMatch_attrs idList en instr idx' ip' st' with ⟨b, hb, _⟩
  rw [hb]
  exact head?_append_left _ hp

/-- The same preservation along the rest of the outer loop. -/
theorem foldProc_attrs_head (idList : List Str) (lines : List Str) (cs : CS)
    (a : Str × Str × Str) (h : cs.st.attrs.head? = some a) :
    ((List.foldl (procLine idList) cs lines).st).attrs.head? = some a := by
  refine foldProc_inv idList (fun s => s.attrs.head? = some a) lines
    (fun line hl en idx ip st _ _ hp => ?_) cs h
  rcases stepMatch_attrs idList en (searchInstr line) idx ip st with ⟨b, hb, _⟩
  rw [hb]
  exact head?_append_left _ hp

/-- Unfolding a line scan whose first remaining sample matches the line. -/
theorem scanGo_first_match (line : Str) (idList : List Str) (en : Str)
    (instr : Option Str) (fuel : Nat) (ip0 : Str) (tl : List Str) (st : St)
    (hips : st.ips = ip0 :: tl) (hm : containsStr line ip0 = true) :
    scanGo line idList en instr (fuel + 1) 0 st
      = scanGo line idList en instr fuel 1 (stepMatch idList en instr 0 ip0 st) := by
  simp [scanGo, hips, hm]

/-! ### Claim C1 -/

def c1T : List Str :=
  [strL "    aaaaaaaaaaaaaaaa 1\n", strL "    bbbbbbbbbbbbbbbb 2\n"]

def c1B : List Str :=
  [strL "  40: aaaaaaaaaaaaaaaa  mov rax, rbx\n",
   strL "  44: bbbbbbbbbbbbbbbb  add rcx, rdx\n"]

def c1A : Str := strL "aaaaaaaaaaaaaaaa"

def c1Bv : Str := strL "bbbbbbbbbbbbbbbb"

/-- C1: the claim that every Attribution carries the matched sample's own
trace task-id fails on the code.  Here the trace pairs token
`bbbbbbbbbbbbbbbb` with task-id `2` and the correlator matches both samples,
yet both recorded attributions carry task-id `1`: after the first removal the
read `id_list[idx]` uses the mutated list's cursor position, which no longer
names the matched sample's own pairing. -/
theorem c1_second_sample_gets_first_id :
    (run c1T c1B).ips0 = [c1A, c1Bv] ∧
    (run c1T c1B).ids0 = [strL "1", strL "2"] ∧
    (run c1T c1B).final.st.matched = [c1A, c1Bv] ∧
    (run c1T c1B).final.st.attrs =
      [(strL "1", [], strL "mov"), (strL "1", [], strL "add")] := by
  decide

/-! ### Claim C2 -/

def c2T : List Str :=
  [strL "    aaaaaaaaaaaaaaaa 1\n", strL "    bbbbbbbbbbbbbbbb 2\n"]

def c2B : List Str :=
  [strL "  40: aaaaaaaaaaaaaaaa  mov rax, rbx\n",
   strL "  44: bbbbbbbbbbbbbbbb  add rcx, rdx\n"]

/-- Following the claim's words, not the code: the number of samples in the
trace carrying the given task-id that were matched, i.e. whose token is no
longer in the final remaining working list. -/
def claimMatchedCount (r : RunOut) (id : Str) : Nat :=
  ((r.ips0.zip r.ids0).filter
    (fun p => p.2 == id && !(r.final.st.ips.contains p.1))).length

/-- C2 counterexample: for task-id `1` the instruction table's counts sum to
2, but only one matched sample of the trace carries task-id `1` (the other
matched sample carries `2` and was recorded under `1` by the index shift). -/
theorem c2_sum_vs_trace_ids_cex :
    tSum (lookupT (strL "1") (run c2T c2B).final.st.ipFreq) = 2 ∧
    claimMatchedCount (run c2T c2B) (strL "1") = 1 ∧
    tSum (lookupT (strL "1") (run c2T c2B).final.st.ipFreq) ≠
      claimMatchedCount (run c2T c2B) (strL "1") := by
  decide

/-- C2 (amended): for every task-id, the sum of raw counts over that task's
instruction-frequency table equals the number of attribution records carrying
that task-id (the id the loop actually recorded), and the normalized
frequencies for that task-id sum to that count divided by the total number of
samples loaded. -/
theorem c2_sums_count_recorded_ids (tl bl : List Str) (id : Str) :
    tSum (lookupT id (run tl bl).final.st.ipFreq)
      = attrCnt id (run tl bl).final.st.attrs ∧
    ((rows ((run tl bl).totalLoaded : ℚ)
        (lookupT id (run tl bl).final.st.ipFreq)).map Prod.snd).sum
      = (attrCnt id (run tl bl).final.st.attrs : ℚ)
        / ((run tl bl).totalLoaded : ℚ) := by
  have h := ((run_tablesOK tl bl).1 id).1
  refine ⟨h, ?_⟩
  rw [rows_snd_sum, h]

/-! ### Claim C3 -/

def c3T : List Str :=
  [strL "    aaaaaaaaaaaaaaaa 1\n", strL "    bbbbbbbbbbbbbbbb 2\n"]

def c3Line : Str := strL "  40: aaaaaaaaaaaaaaaa bbbbbbbbbbbbbbbb  mov rax, rbx\n"

def c3Bv : Str := strL "bbbbbbbbbbbbbbbb"

/-- C3 counterexample: both samples' tokens are substrings of the single
disassembly line, yet after that line's scan the second sample is still in
the remaining list: removing the first matched sample shifted the second one
under the cursor and it was skipped. -/
theorem c3_matching_sample_skipped_cex :
    containsStr c3Line c3Bv = true ∧
    (run c3T [c3Line]).final.st.ips = [c3Bv] := by
  decide

/-- C3 (amended): a line's scan iterates the live list, so a removal makes
the cursor skip the element that shifts into the removed slot; not every
matching sample is attributed on the line.  What does hold: whenever some
remaining sample's token is a substring of the line, at least one matching
sample (the first one the cursor reaches) is attributed on that line and
removed. -/
theorem c3_first_match_attributed (line : Str) (idList : List Str) (en : Str)
    (st : St) (h : ∃ ip ∈ st.ips, containsStr line ip = true) :
    (scanLine line idList en st).ips.length < st.ips.length := by
  have h0 : ∃ ip ∈ st.ips.drop 0, containsStr line ip = true := by simpa using h
  have hdec := scanGo_decrease line idList en (searchInstr line)
    st.ips.length 0 st h0 (by omega)
  simpa [scanLine] using hdec

/-- Witness for C3's amended theorem at a concrete state. -/
theorem c3_first_match_attributed_witness :
    (∃ ip ∈ (⟨[strL "ab"], [], [], [], []⟩ : St).ips,
      containsStr (strL "xabx") ip = true) ∧
    (scanLine (strL "xabx") [] [] ⟨[strL "ab"], [], [], [], []⟩).ips.length
      < (⟨[strL "ab"], [], [], [], []⟩ : St).ips.length :=
  ⟨by decide, c3_first_match_attributed (strL "xabx") [] []
    ⟨[strL "ab"], [], [], [], []⟩ (by decide)⟩

/-! ### Claim C4 -/

def c4T : List Str :=
  [strL "    aaaaaaaaaaaaaaaa 1\n", strL "    aaaaaaaaaaaaaaaa 1\n"]

def c4B : List Str := [strL "  40: aaaaaaaaaaaaaaaa  mov rax, rbx\n"]

def c4A : Str := strL "aaaaaaaaaaaaaaaa"

/-- C4: at-most-once matching.  Generally, every run splits each sample
value's occurrences between the final remaining list and the consumed
(matched) list — so a matched occurrence is consumed exactly once, never
re-matched when its address recurs — and attribution records and match
events are in bijection.  In particular (Scenario C) two identical samples
against a single matching line yield exactly one match and one leftover. -/
theorem c4_at_most_once_and_caseC :
    (∀ tl bl v,
      cnt v (run tl bl).final.st.ips + cnt v (run tl bl).final.st.matched
        = cnt v (run tl bl).ips0 ∧
      (run tl bl).final.st.attrs.length = (run tl bl).final.st.matched.length) ∧
    ((run c4T c4B).final.st.ips = [c4A] ∧
     (run c4T c4B).final.st.matched = [c4A] ∧
     (run c4T c4B).final.st.attrs.length = 1) :=
  ⟨fun tl bl v => ⟨(run_conserve tl bl).1 v, (run_conserve tl bl).2⟩, by decide⟩

/-! ### Claim C5 -/

def c5T : List Str :=
  [strL "    aaaaaaaaaaaaaaaa 1\n", strL "    bbbbbbbbbbbbbbbb 2\n"]

def c5B : List Str :=
  [strL "  40: aaaaaaaaaaaaaaaa  mov rax, rbx\n",
   strL "  44: bbbbbbbbbbbbbbbb  add rcx, rdx\n"]

/-- C5: the aggregation invariant.  For every task-id, the sum of the
instruction-frequency table's counts equals the sum of the
function-frequency table's counts and both equal the number of attribution
records carrying that task-id; and every recorded task-id is an element of
the id list read from the trace.  (Proved by showing every attribution event
preserves the invariant, so it holds after each processed line.) -/
theorem c5_tables_invariant (tl bl : List Str) :
    (∀ id, tSum (lookupT id (run tl bl).final.st.ipFreq)
         = attrCnt id (run tl bl).final.st.attrs ∧
       tSum (lookupT id (run tl bl).final.st.fnFreq)
         = attrCnt id (run tl bl).final.st.attrs) ∧
    (∀ a ∈ (run tl bl).final.st.attrs, a.1 ∈ (run tl bl).ids0) :=
  ⟨(run_tablesOK tl bl).1, (run_tablesOK tl bl).2.1⟩

/-- Witness for C5 at a concrete run. -/
theorem c5_tables_invariant_witness :
    (strL "1", ([] : Str), strL "mov") ∈ (run c5T c5B).final.st.attrs ∧
    (strL "1", ([] : Str), strL "mov").1 ∈ (run c5T c5B).ids0 :=
  ⟨by decide, (c5_tables_invariant c5T c5B).2 _ (by decide)⟩

/-! ### Claim C6 -/

def c6T : List Str := [strL "    00000000deadbeef 1\n"]

def c6B : List Str :=
  [strL "<foo>:\n", strL "  4: 00000000deadbeef  mov eax, ebx\n"]

def c6Sec : Str × List (Str × ℚ) × List (Str × ℚ) :=
  (strL "1", [(strL "<foo>:", (1 : ℚ))], [(strL "mov", (1 : ℚ))])

/-- C6: every frequency the report prints is some raw table count divided by
the total number of samples originally loaded (the number of trace lines,
fixed before the correlation loop mutates the working list), and the final
`Samples taken` value is that same total. -/
theorem c6_normalized_by_total (tl bl : List Str) :
    (∀ sec ∈ (report (run tl bl)).sections,
      ∃ tab, (sec.1, tab) ∈ (run tl bl).final.st.fnFreq ∧
        (∀ e ∈ sec.2.1, ∃ c : ℕ, (e.1, c) ∈ tab ∧
          e.2 = (c : ℚ) / (tl.length : ℚ)) ∧
        (∀ e ∈ sec.2.2, ∃ c : ℕ,
          (e.1, c) ∈ lookupT sec.1 (run tl bl).final.st.ipFreq ∧
          e.2 = (c : ℚ) / (tl.length : ℚ))) ∧
    (report (run tl bl)).samplesTaken = (tl.length : ℚ) := by
  have htot : (run tl bl).totalLoaded = tl.length := run_total tl bl
  constructor
  · intro sec hsec
    rcases List.mem_map.mp hsec with ⟨p, hp, rfl⟩
    refine ⟨p.2, by simpa using hp, ?_, ?_⟩
    · intro e he
      rcases rows_mem he with ⟨c, hc, he2⟩
      exact ⟨c, hc, by rw [he2, htot]⟩
    · intro e he
      rcases rows_mem he with ⟨c, hc, he2⟩
      exact ⟨c, hc, by rw [he2, htot]⟩
  · simp [report, htot]

/-- Evaluation of the concrete C6 report. -/
theorem c6_sections_eval : (report (run c6T c6B)).sections = [c6Sec] := by
  have hfn : (run c6T c6B).final.st.fnFreq
      = [(strL "1", [(strL "<foo>:", 1)])] := by decide
  have hlk : lookupT (strL "1") (run c6T c6B).final.st.ipFreq
      = [(strL "mov", 1)] := by decide
  have htot : (run c6T c6B).totalLoaded = 1 := by decide
  simp [report, hfn, hlk, htot, rows, sortDesc, insertDesc, c6Sec]

/-- Witness for C6 at a concrete run whose report is
`FOR ID: 1 / <foo>: 1.0 / mov 1.0`. -/
theorem c6_normalized_by_total_witness :
    c6Sec ∈ (report (run c6T c6B)).sections ∧
    (∃ tab, (c6Sec.1, tab) ∈ (run c6T c6B).final.st.fnFreq ∧
      (∀ e ∈ c6Sec.2.1, ∃ c : ℕ, (e.1, c) ∈ tab ∧
        e.2 = (c : ℚ) / (c6T.length : ℚ)) ∧
      (∀ e ∈ c6Sec.2.2, ∃ c : ℕ,
        (e.1, c) ∈ lookupT c6Sec.1 (run c6T c6B).final.st.ipFreq ∧
        e.2 = (c : ℚ) / (c6T.length : ℚ))) :=
  ⟨by rw [c6_sections_eval]; simp,
   (c6_normalized_by_total c6T c6B).1 c6Sec (by rw [c6_sections_eval]; simp)⟩

/-! ### Claim C8 -/

def c8xT : List Str := [strL "    deadbeef         1\n"]

def c8xB : List Str :=
  [strL "<foo>:\n", strL "  4: deadbeef  mov eax, ebx\n"]

/-- C8 counterexample: with the scenario's own disassembly and a trace record
with address `deadbeef` and task `1` in the fixed-width layout, the 16-column
address field reads `deadbeef` plus its padding, that token is a substring of
no disassembly line, and the run produces no attribution at all (hence not
the expected single `{task=1, "<foo>:", mov}` attribution). -/
theorem c8_narrow_address_cex :
    (run c8xT c8xB).ids0 = [strL "1"] ∧
    (run c8xT c8xB).ips0 = [strL "deadbeef        "] ∧
    (run c8xT c8xB).final.st.attrs = [] := by
  decide

def c8T : List Str := [strL "    00000000deadbeef 1\n"]

def c8B : List Str :=
  [strL "<foo>:\n", strL "  4: 00000000deadbeef  mov eax, ebx\n"]

/-- C8 (amended): Scenario A with the full-width address
`00000000deadbeef` in both the trace record's 16-column field and the
instruction line: exactly one attribution `{task=1, function="<foo>:",
instr="mov"}`, a report section for task `1` showing `<foo>:` at frequency 1
and `mov` at frequency 1, and a total sample count of 1. -/
theorem c8_full_width_end_to_end :
    (run c8T c8B).final.st.attrs = [(strL "1", strL "<foo>:", strL "mov")] ∧
    (report (run c8T c8B)).sections
      = [(strL "1", [(strL "<foo>:", (1 : ℚ))], [(strL "mov", (1 : ℚ))])] ∧
    (report (run c8T c8B)).samplesTaken = 1 := by
  have hfn : (run c8T c8B).final.st.fnFreq
      = [(strL "1", [(strL "<foo>:", 1)])] := by decide
  have hlk : lookupT (strL "1") (run c8T c8B).final.st.ipFreq
      = [(strL "mov", 1)] := by decide
  have htot : (run c8T c8B).totalLoaded = 1 := by decide
  refine ⟨by decide, ?_, ?_⟩
  · simp [report, hfn, hlk, htot, rows, sortDesc, insertDesc]
  · simp [report, htot]

/-! ### Claim C9 -/

def c9xT : List Str :=
  [strL "    aaaaaaaaaaaaaaaa 1\n", strL "    bbbbbbbbbbbbbbbb 2\n",
   strL "    aaaaaaaaaaaaaaaa 3\n"]

def c9xB : List Str := [strL "  40: aaaaaaaaaaaaaaaa  mov rax, rbx\n"]

def c9xBv : Str := strL "bbbbbbbbbbbbbbbb"

/-- C9 counterexample: the sample with token `bbbbbbbbbbbbbbbb` (task `2`)
matches no disassembly line and stays unmatched, yet the instruction table
acquires an entry under its task-id `2`: the index shift lets another
sample's match record this sample's id, fabricating a table entry for it. -/
theorem c9_fabricated_id_cex :
    (∀ line ∈ c9xB, containsStr line c9xBv = false) ∧
    (run c9xT c9xB).ids0 = [strL "1", strL "2", strL "3"] ∧
    (run c9xT c9xB).ips0 = [strL "aaaaaaaaaaaaaaaa", c9xBv, strL "aaaaaaaaaaaaaaaa"] ∧
    (run c9xT c9xB).final.st.ips = [c9xBv] ∧
    tSum (lookupT (strL "2") (run c9xT c9xB).final.st.ipFreq) = 1 := by
  decide

/-- C9 (amended): a sample whose token is a substring of no disassembly line
is never matched: all of its token's occurrences remain in the working list
after the scan and no match event ever consumed the token — the miss is
silent, visible only in the remaining list.  (The run prints no unmatched
count, and the index shift can still record such a sample's task-id for a
different sample's match, as the counterexample shows.) -/
theorem c9_unmatched_silent (tl bl : List Str) (v : Str)
    (h : ∀ line ∈ bl, containsStr line v = false) :
    cnt v (run tl bl).final.st.ips = cnt v (run tl bl).ips0 ∧
    v ∉ (run tl bl).final.st.matched := by
  have hI := correlate_inv (tl.map idTok)
    (fun st => cnt v st.ips = cnt v (tl.map ipTok) ∧ v ∉ st.matched) bl
    (fun line hl en idx ip st hd hc hP => by
      obtain ⟨h1, h2⟩ := hP
      have hne : ip ≠ v := by
        intro he
        rw [he, h line hl] at hc
        cases hc
      constructor
      · rw [stepMatch_ips, cnt_removeFirst_ne hne, h1]
      · rw [stepMatch_matched]
        intro hv
        rcases List.mem_append.mp hv with h' | h'
        · exact h2 h'
        · simp at h'
          exact hne h'.symm)
    ⟨tl.map ipTok, [], [], [], []⟩ ⟨rfl, by simp⟩
  simpa [run] using hI

def c9wT : List Str := [strL "    cccccccccccccccc 7\n"]

def c9wB : List Str := [strL "  40: dddddddddddddddd  mov rax, rbx\n"]

def c9wV : Str := strL "cccccccccccccccc"

/-- Witness for C9's amended theorem: Scenario B with one never-matching
sample. -/
theorem c9_unmatched_silent_witness :
    (∀ line ∈ c9wB, containsStr line c9wV = false) ∧
    (cnt c9wV (run c9wT c9wB).final.st.ips = cnt c9wV (run c9wT c9wB).ips0 ∧
     c9wV ∉ (run c9wT c9wB).final.st.matched) :=
  ⟨by decide, c9_unmatched_silent c9wT c9wB c9wV (by decide)⟩

/-! ### Claim C10 -/

def c10xT : List Str := [strL "    aaaaaaaaaaaaaaaa 1\n", strL "hi\n"]

def c10xB : List Str := [strL "  40: aaaaaaaaaaaaaaaa  mov rax, rbx\n"]

/-- C10 counterexample: the trace's second line has fewer than 5 characters,
so its token is the empty string — a substring of every line — yet it is not
attributed on the very first disassembly line: the removal of the first
sample (which matches that line) shifts the empty-token sample under the
cursor and the scan skips it, leaving it unmatched for good. -/
theorem c10_short_line_skipped_cex :
    ipTok (strL "hi\n") = [] ∧
    (run c10xT c10xB).final.st.ips = [[]] ∧
    (run c10xT c10xB).final.st.attrs = [(strL "1", [], strL "mov")] := by
  decide

/-- C10 (amended): for a trace whose first line has fewer than 5 characters,
the extracted token and task-id are both empty and the empty token matches
every line, so with a non-empty disassembly this sample is attributed during
the very first line's scan — with the empty string as recorded task-id — and
removed, and that attribution stays the run's first one.  (When such a sample
is not first in the list it can instead be skipped past a line by an earlier
removal, as the counterexample shows.) -/
theorem c10_short_first_sample (t0 : Str) (rest : List Str) (d : Str)
    (ds : List Str) (h : t0.length < 5) :
    ∃ f m : Str,
      (procLine ((t0 :: rest).map idTok)
          ⟨[], ⟨(t0 :: rest).map ipTok, [], [], [], []⟩⟩ d).st.attrs.head?
        = some (([] : Str), f, m) ∧
      (run (t0 :: rest) (d :: ds)).final.st.attrs.head?
        = some (([] : Str), f, m) ∧
      (procLine ((t0 :: rest).map idTok)
          ⟨[], ⟨(t0 :: rest).map ipTok, [], [], [], []⟩⟩ d).st.ips.length
        ≤ rest.length := by
  have hip0 : ipTok t0 = [] := by
    have h4 : t0.drop 4 = [] := List.drop_eq_nil_of_le (by omega)
    simp [ipTok, h4]
  have hid0 : idTok t0 = [] := by
    have h21 : t0.drop 21 = [] := List.drop_eq_nil_of_le (by omega)
    simp [idTok, h21]
  have hline : ∀ en : Str, ∃ a : Str × Str × Str,
      (scanLine d ((t0 :: rest).map idTok) en
        ⟨(t0 :: rest).map ipTok, [], [], [], []⟩).attrs.head? = some a ∧
      a.1 = [] ∧
      (scanLine d ((t0 :: rest).map idTok) en
        ⟨(t0 :: rest).map ipTok, [], [], [], []⟩).ips.length ≤ rest.length := by
    intro en
    have hips : (⟨(t0 :: rest).map ipTok, [], [], [], []⟩ : St).ips
        = [] :: rest.map ipTok := by
      simp [hip0]
    have h1 : scanLine d ((t0 :: rest).map idTok) en
        ⟨(t0 :: rest).map ipTok, [], [], [], []⟩
        = scanGo d ((t0 :: rest).map idTok) en (searchInstr d)
            (rest.length + 1) 0 ⟨(t0 :: rest).map ipTok, [], [], [], []⟩ := by
      simp [scanLine]
    have h2 : scanGo d ((t0 :: rest).map idTok) en (searchInstr d)
        (rest.length + 1) 0 ⟨(t0 :: rest).map ipTok, [], [], [], []⟩
        = scanGo d ((t0 :: rest).map idTok) en (searchInstr d) rest.length 1
            (stepMatch ((t0 :: rest).map idTok) en (searchInstr d) 0 []
              ⟨(t0 :: rest).map ipTok, [], [], [], []⟩) :=
      scanGo_first_match d ((t0 :: rest).map idTok) en (searchInstr d)
        rest.length [] (rest.map ipTok) _ hips (containsStr_nil d)
    rcases stepMatch_attrs ((t0 :: rest).map idTok) en (searchInstr d) 0 []
        ⟨(t0 :: rest).map ipTok, [], [], [], []⟩ with ⟨a, ha, ha1⟩
    have hrid : ((t0 :: rest).map idTok).getD 0 [] = [] := by
      simp [hid0]
    have ha1' : a.1 = [] := by rw [ha1, hrid]
    have hhead1 : (stepMatch ((t0 :: rest).map idTok) en (searchInstr d) 0 []
        ⟨(t0 :: rest).map ipTok, [], [], [], []⟩).attrs.head? = some a := by
      rw [ha]
      rfl
    have hips1 : (stepMatch ((t0 :: rest).map idTok) en (searchInstr d) 0 []
        ⟨(t0 :: rest).map ipTok, [], [], [], []⟩).ips = rest.map ipTok := by
      rw [stepMatch_ips, hips]
      simp [removeFirst]
    refine ⟨a, ?_, ha1', ?_⟩
    · rw [h1, h2]
      exact scanGo_attrs_head _ _ _ _ _ _ _ a hhead1
    · rw [h1, h2]
      calc (scanGo d ((t0 :: rest).map idTok) en (searchInstr d) rest.length 1
              (stepMatch ((t0 :: rest).map idTok) en (searchInstr d) 0 []
                ⟨(t0 :: rest).map ipTok, [], [], [], []⟩)).ips.length
          ≤ (stepMatch ((t0 :: rest).map idTok) en (searchInstr d) 0 []
              ⟨(t0 :: rest).map ipTok, [], [], [], []⟩).ips.length :=
            scanGo_ips_le _ _ _ _ _ _ _
        _ ≤ rest.length := by rw [hips1]; simp
  obtain ⟨a, ha, ha1, hlen⟩ :=
    hline (match searchFunc d with
           | some g => g
           | none => (⟨[], ⟨(t0 :: rest).map ipTok, [], [], [], []⟩⟩ : CS).en)
  have hproc : (procLine ((t0 :: rest).map idTok)
      ⟨[], ⟨(t0 :: rest).map ipTok, [], [], [], []⟩⟩ d).st.attrs.head? = some a := ha
  have hrun : (run (t0 :: rest) (d :: ds)).final.st.attrs.head? = some a := by
    rw [run_final, List.foldl_cons]
    exact foldProc_attrs_head _ ds _ a hproc
  rcases a with ⟨a1, a2, a3⟩
  simp only at ha1
  subst ha1
  exact ⟨a2, a3, hproc, hrun, hlen⟩

/-- Witness for C10's amended theorem. -/
theorem c10_short_first_sample_witness :
    (strL "hey\n").length < 5 ∧
    (∃ f m : Str,
      (procLine ((strL "hey\n" :: ([] : List Str)).map idTok)
          ⟨[], ⟨(strL "hey\n" :: ([] : List Str)).map ipTok, [], [], [], []⟩⟩
          (strL "nop\n")).st.attrs.head? = some (([] : Str), f, m) ∧
      (run (strL "hey\n" :: ([] : List Str))
          (strL "nop\n" :: ([] : List Str))).final.st.attrs.head?
        = some (([] : Str), f, m) ∧
      (procLine ((strL "hey\n" :: ([] : List Str)).map idTok)
          ⟨[], ⟨(strL "hey\n" :: ([] : List Str)).map ipTok, [], [], [], []⟩⟩
          (strL "nop\n")).st.ips.length ≤ ([] : List Str).length) :=
  ⟨by decide, c10_short_first_sample (strL "hey\n") [] (strL "nop\n") [] (by decide)⟩

end SampleParser
